import Mathlib

/-!
Verification development for the zkEVM RW-operation log and copy-event pipeline.

The definitions below are shallow embeddings of the Rust sources:
machine integers (`usize`, `u64`, 256-bit `Word`) are modelled as `Nat`
(the code only compares, sorts and increments these values, so no wrap-around
behaviour is exercised), field expressions used as counters are modelled as
`Int`, and Rust panics are modelled as `Option.none`.  Definitions whose Rust
source is not part of the corpus (only its declarations, tests or callers are)
are modelled from the specification and carry a doc comment starting with
`Modelled from the spec:`.
-/

/-- Modelled from the spec: the `Target` discriminator of `bus_mapping::operation`
(the enum declaration itself is not in the corpus; `witness/rw.rs` matches on its
variants and casts it `as u64` for sort keys).  The numeric codes only need to be
injective for every property proved here. -/
inductive Target
  | start
  | memory
  | stack
  | storage
  | txAccessListAccount
  | txAccessListAccountStorage
  | txRefund
  | account
  | callContext
  | txReceipt
  | txLog
  | stepState
  | padding
  deriving DecidableEq

/-- Modelled from the spec: numeric discriminant of `Target` (`tag() as u64`). -/
def Target.code : Target → ℕ
  | .start => 1
  | .memory => 2
  | .stack => 3
  | .storage => 4
  | .txAccessListAccount => 5
  | .txAccessListAccountStorage => 6
  | .txRefund => 7
  | .account => 8
  | .callContext => 9
  | .txReceipt => 10
  | .txLog => 11
  | .stepState => 12
  | .padding => 13

/-- List of all `Target` variants, used to model grouping a `Vec<Rw>` into the
per-target `HashMap` of `RwMap` (`impl From<Vec<Rw>> for RwMap` in
`zkevm-circuits/src/witness/rw.rs`). -/
def Target.all : List Target :=
  [.start, .memory, .stack, .storage, .txAccessListAccount, .txAccessListAccountStorage,
   .txRefund, .account, .callContext, .txReceipt, .txLog, .stepState, .padding]

/-- The `CallContextField` variants listed in the `From<&OperationContainer>`
impl of `zkevm-circuits/src/witness/rw.rs` (one constructor per variant). -/
inductive CallContextFieldTag
  | rwCounterEndOfReversion
  | callerId
  | txId
  | depth
  | callerAddress
  | calleeAddress
  | callDataOffset
  | callDataLength
  | returnDataOffset
  | returnDataLength
  | value
  | isSuccess
  | isPersistent
  | isStatic
  | lastCalleeId
  | lastCalleeReturnDataOffset
  | lastCalleeReturnDataLength
  | isRoot
  | isCreate
  | codeHash
  | programCounter
  | stackPointer
  | gasLeft
  | memorySize
  | reversibleWriteCounter
  deriving DecidableEq

/-- Modelled from the spec: numeric discriminant of `CallContextFieldTag`
(`field_tag() as u64`; the enum with its discriminants lives in `table.rs`,
not in the corpus).  Only injectivity matters for the properties here. -/
def CallContextFieldTag.code : CallContextFieldTag → ℕ
  | .rwCounterEndOfReversion => 1
  | .callerId => 2
  | .txId => 3
  | .depth => 4
  | .callerAddress => 5
  | .calleeAddress => 6
  | .callDataOffset => 7
  | .callDataLength => 8
  | .returnDataOffset => 9
  | .returnDataLength => 10
  | .value => 11
  | .isSuccess => 12
  | .isPersistent => 13
  | .isStatic => 14
  | .lastCalleeId => 15
  | .lastCalleeReturnDataOffset => 16
  | .lastCalleeReturnDataLength => 17
  | .isRoot => 18
  | .isCreate => 19
  | .codeHash => 20
  | .programCounter => 21
  | .stackPointer => 22
  | .gasLeft => 23
  | .memorySize => 24
  | .reversibleWriteCounter => 25

/-- The `Rw` enum of `zkevm-circuits/src/witness/rw.rs` (one constructor per
variant, with the same per-variant fields; 256-bit words, addresses and the
remaining field-tag enums are modelled as `Nat`). -/
inductive Rw
  | start (rw_counter : ℕ)
  | txAccessListAccount (rw_counter : ℕ) (is_write : Bool) (tx_id account_address : ℕ)
      (is_warm is_warm_prev : Bool)
  | txAccessListAccountStorage (rw_counter : ℕ) (is_write : Bool)
      (tx_id account_address storage_key : ℕ) (is_warm is_warm_prev : Bool)
  | txRefund (rw_counter : ℕ) (is_write : Bool) (tx_id value value_prev : ℕ)
  | account (rw_counter : ℕ) (is_write : Bool) (account_address field_tag value value_prev : ℕ)
  | accountStorage (rw_counter : ℕ) (is_write : Bool)
      (account_address storage_key value value_prev tx_id committed_value : ℕ)
  | callContext (rw_counter : ℕ) (is_write : Bool) (call_id : ℕ)
      (field_tag : CallContextFieldTag) (value : ℕ)
  | stack (rw_counter : ℕ) (is_write : Bool) (call_id stack_pointer value : ℕ)
  | memory (rw_counter : ℕ) (is_write : Bool) (call_id memory_address byte : ℕ)
  | txLog (rw_counter : ℕ) (is_write : Bool) (tx_id log_id field_tag index value : ℕ)
  | txReceipt (rw_counter : ℕ) (is_write : Bool) (tx_id field_tag value : ℕ)
  | stepState (rw_counter : ℕ) (is_write : Bool) (field_tag value : ℕ)
  | padding (rw_counter : ℕ)
  deriving DecidableEq

/-- The `Rw::rw_counter` accessor of `witness/rw.rs`. -/
def Rw.rw_counter : Rw → ℕ
  | .start c => c
  | .txAccessListAccount c _ _ _ _ _ => c
  | .txAccessListAccountStorage c _ _ _ _ _ _ => c
  | .txRefund c _ _ _ _ => c
  | .account c _ _ _ _ _ => c
  | .accountStorage c _ _ _ _ _ _ _ => c
  | .callContext c _ _ _ _ => c
  | .stack c _ _ _ _ => c
  | .memory c _ _ _ _ => c
  | .txLog c _ _ _ _ _ _ => c
  | .txReceipt c _ _ _ _ => c
  | .stepState c _ _ _ => c
  | .padding c => c

/-- The `Rw::tag` accessor of `witness/rw.rs`. -/
def Rw.tag : Rw → Target
  | .start _ => .start
  | .txAccessListAccount _ _ _ _ _ _ => .txAccessListAccount
  | .txAccessListAccountStorage _ _ _ _ _ _ _ => .txAccessListAccountStorage
  | .txRefund _ _ _ _ _ => .txRefund
  | .account _ _ _ _ _ _ => .account
  | .accountStorage _ _ _ _ _ _ _ _ => .storage
  | .callContext _ _ _ _ _ => .callContext
  | .stack _ _ _ _ _ => .stack
  | .memory _ _ _ _ _ => .memory
  | .txLog _ _ _ _ _ _ _ => .txLog
  | .txReceipt _ _ _ _ _ => .txReceipt
  | .stepState _ _ _ _ => .stepState
  | .padding _ => .padding

/-- The `Rw::id` accessor of `witness/rw.rs` (tx id or call id, `None` for
`Start`/`Padding`/`Account`/`StepState`). -/
def Rw.id : Rw → Option ℕ
  | .start _ => none
  | .txAccessListAccount _ _ tx_id _ _ _ => some tx_id
  | .txAccessListAccountStorage _ _ tx_id _ _ _ _ => some tx_id
  | .txRefund _ _ tx_id _ _ => some tx_id
  | .account _ _ _ _ _ _ => none
  | .accountStorage _ _ _ _ _ _ tx_id _ => some tx_id
  | .callContext _ _ call_id _ _ => some call_id
  | .stack _ _ call_id _ _ => some call_id
  | .memory _ _ call_id _ _ => some call_id
  | .txLog _ _ tx_id _ _ _ _ => some tx_id
  | .txReceipt _ _ tx_id _ _ => some tx_id
  | .stepState _ _ _ _ => none
  | .padding _ => none

/-- Modelled from the spec: `build_tx_log_address` packs index, field tag and
log id into a single integer address (the packing convention is fixed once by
the downstream log-table layout; `util.rs` is not in the corpus).  Only the
fact that it is some fixed packing function matters here. -/
def build_tx_log_address (index field_tag log_id : ℕ) : ℕ :=
  index + field_tag * 2 ^ 32 + log_id * 2 ^ 48

/-- The `Rw::address` accessor of `witness/rw.rs`. -/
def Rw.address : Rw → Option ℕ
  | .start _ => none
  | .txAccessListAccount _ _ _ a _ _ => some a
  | .txAccessListAccountStorage _ _ _ a _ _ _ => some a
  | .txRefund _ _ _ _ _ => none
  | .account _ _ a _ _ _ => some a
  | .accountStorage _ _ a _ _ _ _ _ => some a
  | .callContext _ _ _ _ _ => none
  | .stack _ _ _ sp _ => some sp
  | .memory _ _ _ ma _ => some ma
  | .txLog _ _ _ log_id field_tag index _ => some (build_tx_log_address index field_tag log_id)
  | .txReceipt _ _ _ _ _ => none
  | .stepState _ _ _ _ => none
  | .padding _ => none

/-- The `Rw::field_tag` accessor of `witness/rw.rs` (`as u64`). -/
def Rw.field_tag : Rw → Option ℕ
  | .account _ _ _ ft _ _ => some ft
  | .callContext _ _ _ ft _ => some ft.code
  | .stepState _ _ ft _ => some ft
  | .txReceipt _ _ _ ft _ => some ft
  | _ => none

/-- The `Rw::storage_key` accessor of `witness/rw.rs`. -/
def Rw.storage_key : Rw → Option ℕ
  | .accountStorage _ _ _ k _ _ _ _ => some k
  | .txAccessListAccountStorage _ _ _ _ k _ _ => some k
  | _ => none

/-- Sort key used by `RwMap::table_assignments` with
`keep_chronological_order == true`: `(rw_counter, tag as u64)`. -/
def Rw.chronoKey (r : Rw) : Lex (ℕ × ℕ) :=
  toLex (r.rw_counter, r.tag.code)

/-- Sort key used by `RwMap::table_assignments` with
`keep_chronological_order == false`: the grouping tuple
`(tag, id, address, field_tag, storage_key)` with `rw_counter` as the final
tie-breaker (`unwrap_or_default` is `getD 0`). -/
def Rw.groupKey (r : Rw) : Lex (ℕ × Lex (ℕ × Lex (ℕ × Lex (ℕ × Lex (ℕ × ℕ))))) :=
  toLex (r.tag.code, toLex ((r.id.getD 0), toLex ((r.address.getD 0),
    toLex ((r.field_tag.getD 0), toLex ((r.storage_key.getD 0), r.rw_counter)))))

/-- Stable sort by a key, modelling Rust `slice::sort_by_key`.  Insertion sort
is used so the definition evaluates in the kernel; it is stable and sorts by
the key order, which is all `sort_by_key` guarantees. -/
def sortByKey {α κ : Type} [LinearOrder κ] (key : α → κ) (l : List α) : List α :=
  l.insertionSort (fun a b => key a ≤ key b)

/-- An `RwMap` (`HashMap<Target, Vec<Rw>>`) modelled as an association list;
the `HashMap` iteration order is unspecified in Rust, and every function
translated below is insensitive to the entry order up to the sort it performs. -/
def RwMap : Type := List (Target × List Rw)

/-- All stored rows: `self.0.values().flatten()`. -/
def RwMap.allRows (m : RwMap) : List Rw :=
  (m.map Prod.snd).flatten

/-- Helper for `check_rw_counter_sanity`: the chained
`debug_assert_eq!(rw_counter_cur - rw_counter_prev, 1)` over `tuple_windows()`
of the sorted counter list (usize subtraction, which never truncates here
because the list is sorted ascending). -/
def chainDiffOne : List ℕ → Bool
  | [] => true
  | [_] => true
  | a :: b :: t => (b - a == 1) && chainDiffOne (b :: t)

/-- The `RwMap::check_rw_counter_sanity` check of `witness/rw.rs`: collect the
`rw_counter` of every stored operation whose target is not `Padding` and not
`Start`, sort, and require consecutive values to differ by exactly 1. -/
def RwMap.check_rw_counter_sanity (m : RwMap) : Bool :=
  chainDiffOne
    ((((m.filter (fun e => !(e.1 == Target.padding) && !(e.1 == Target.start))).map
        Prod.snd).flatten.map Rw.rw_counter).insertionSort (· ≤ ·))

/-- The `RwMap::padding_len` helper of `witness/rw.rs`.  `target_len == 0` is
an "auto" mode; a nonzero `target_len` smaller than `rows_len` panics
(modelled as `none`). -/
def RwMap.padding_len (rows_len target_len : ℕ) : Option ℕ :=
  if rows_len ≤ target_len then
    some (target_len - rows_len)
  else if target_len ≠ 0 then
    none
  else
    some 0

/-- The first `n` counters of the infinite iterator
`(start_padding_rw_counter..).flat_map(skip counters already used by Padding
rows)` of `table_assignments_padding`, materialised to a sufficient finite
prefix (`n + exist.length` candidates always contain at least `n` survivors). -/
def paddingCounters (exist : List ℕ) (start n : ℕ) : List ℕ :=
  (((List.range (n + exist.length)).map (fun i => start + i)).filter
    (fun c => !(exist.contains c))).take n

/-- The rw-counter extraction performed on `Rw::Padding` rows by the filter
closure of `table_assignments_padding` (named so proofs can refer to it). -/
def rwPaddingCounter : Rw → Option ℕ
  | .padding c => some c
  | _ => none

/-- The `!matches!(rw, Rw::Start { .. })` filter closure of
`table_assignments_padding` (note it keeps `Padding` rows). -/
def rwIsNotStart : Rw → Bool
  | .start _ => false
  | _ => true

/-- The `RwMap::table_assignments_padding` function of `witness/rw.rs`:
collect the counters of pre-existing `Padding` rows, drop `Start` rows, then
emit the padding-start row, the trimmed rows, and fresh `Padding` rows,
truncated to exactly `target_len` rows.  The `padding_len` panic is
propagated as `none`. -/
def RwMap.table_assignments_padding (rows : List Rw) (target_len : ℕ)
    (padding_start_rw : Option Rw) : Option (List Rw × ℕ) :=
  let padding_exist := rows.filterMap rwPaddingCounter
  let rows_trimmed := rows.filter rwIsNotStart
  match RwMap.padding_len rows_trimmed.length target_len with
  | none => none
  | some len =>
    let padding_length := len - 1
    let start_padding_rw_counter := rows_trimmed.length + 1
    let padding :=
      (paddingCounters padding_exist start_padding_rw_counter target_len).map Rw.padding
    some ((([padding_start_rw.getD (Rw.start 1)] ++ rows_trimmed ++ padding).take target_len),
      padding_length)

/-- The `RwMap::table_assignments` function of `witness/rw.rs`: flatten all
stored rows and stable-sort them, by `(rw_counter, tag)` when
`keep_chronological_order` is set and by the grouping key otherwise. -/
def RwMap.table_assignments (m : RwMap) (keep_chronological_order : Bool) : List Rw :=
  if keep_chronological_order then
    sortByKey Rw.chronoKey m.allRows
  else
    sortByKey Rw.groupKey m.allRows

/-- The `impl From<Vec<Rw>> for RwMap` of `witness/rw.rs`: group rows by their
variant's target, preserving per-target order (an entry is modelled for every
target; for targets that never occur the bucket is empty). -/
def RwMap.ofRws (rws : List Rw) : RwMap :=
  Target.all.map (fun t => (t, rws.filter (fun r => r.tag == t)))

/-- The targets that survive the `check_rw_counter_sanity` filter: every
target except `Padding` and `Start`. -/
def realTargets : List Target :=
  Target.all.filter (fun t => !(t == Target.padding) && !(t == Target.start))

/-- Modelled from the spec: one typed operation as pushed by an opcode handler
through `push_op` (the `bus_mapping::operation` op types are not in the corpus;
their fields are those the `From<&OperationContainer>` impl of `witness/rw.rs`
reads back out).  `Start` and `Padding` rows are never pushed by handlers —
they are appended only at padding time — so they have no constructor here. -/
inductive Operation
  | stackOp (is_write : Bool) (call_id stack_pointer value : ℕ)
  | memoryOp (is_write : Bool) (call_id memory_address byte : ℕ)
  | storageOp (is_write : Bool) (account_address storage_key value value_prev tx_id committed_value : ℕ)
  | txAccessListAccountOp (is_write : Bool) (tx_id account_address : ℕ) (is_warm is_warm_prev : Bool)
  | txAccessListAccountStorageOp (is_write : Bool) (tx_id account_address storage_key : ℕ)
      (is_warm is_warm_prev : Bool)
  | txRefundOp (is_write : Bool) (tx_id value value_prev : ℕ)
  | accountOp (is_write : Bool) (account_address field_tag value value_prev : ℕ)
  | callContextOp (is_write : Bool) (call_id : ℕ) (field : CallContextFieldTag) (value : ℕ)
  | txLogOp (is_write : Bool) (tx_id log_id field_tag index value : ℕ)
  | txReceiptOp (is_write : Bool) (tx_id field_tag value : ℕ)
  | stepStateOp (is_write : Bool) (field_tag value : ℕ)
  deriving DecidableEq

/-- Stamp an operation with the RW counter it is assigned at insertion time,
following the per-target `Rw` construction of the
`From<&OperationContainer>` impl in `witness/rw.rs`. -/
def Operation.toRw (c : ℕ) : Operation → Rw
  | .stackOp w id sp v => Rw.stack c w id sp v
  | .memoryOp w id a b => Rw.memory c w id a b
  | .storageOp w a k v vp tx cv => Rw.accountStorage c w a k v vp tx cv
  | .txAccessListAccountOp w tx a iw iwp => Rw.txAccessListAccount c w tx a iw iwp
  | .txAccessListAccountStorageOp w tx a k iw iwp => Rw.txAccessListAccountStorage c w tx a k iw iwp
  | .txRefundOp w tx v vp => Rw.txRefund c w tx v vp
  | .accountOp w a ft v vp => Rw.account c w a ft v vp
  | .callContextOp w id f v => Rw.callContext c w id f v
  | .txLogOp w tx lg ft ix v => Rw.txLog c w tx lg ft ix v
  | .txReceiptOp w tx ft v => Rw.txReceipt c w tx ft v
  | .stepStateOp w ft v => Rw.stepState c w ft v

/-- Modelled from the spec: the RW-counter-aware emission choke point
(`push_op`): every operation is stamped with the next RWC value, in emission
order, starting from the given counter (the global counter starts at 1 for a
block). -/
def stampFrom (c : ℕ) : List Operation → List Rw
  | [] => []
  | op :: t => op.toRw c :: stampFrom (c + 1) t

/-- Modelled from the spec: generic rendering of "each push consumes the next
RWC" for per-opcode emission traces (used by the MLOAD and CALLER handlers
below). -/
def stampOps {α : Type} (c : ℕ) : List α → List (ℕ × α)
  | [] => []
  | a :: t => (c, a) :: stampOps (c + 1) t

/-- The `ReversionInfo` bookkeeping of
`zkevm-circuits/src/evm_circuit/util/constraint_builder.rs`: the
`RwCounterEndOfReversion` and `IsPersistent` call-context values plus the
current cumulative `reversible_write_counter` (field expressions modelled
as integers, the persistence flag as a boolean). -/
structure ReversionInfo where
  rw_counter_end_of_reversion : ℤ
  is_persistent : Bool
  reversible_write_counter : ℤ
  deriving DecidableEq

/-- The `ReversionInfo::rw_counter_of_reversion` method: return
`rw_counter_end_of_reversion - reversible_write_counter` and increase
`reversible_write_counter` by 1 exactly when `inc_selector` is enabled. -/
def ReversionInfo.rw_counter_of_reversion (ri : ReversionInfo) (inc_selector : Bool) :
    ℤ × ReversionInfo :=
  (ri.rw_counter_end_of_reversion - ri.reversible_write_counter,
   { ri with reversible_write_counter :=
       ri.reversible_write_counter + (if inc_selector then 1 else 0) })

/-- The `EVMConstraintBuilder::reversible_write` shape (constraint_builder.rs):
emit the original write, then — guarded on `is_persistent == 0` — a mirrored
undo write whose RW counter is `rw_counter_of_reversion` (the counter
bookkeeping advances at build time with selector 1 in the unconditional case
modelled here).  Returns the mirrored write's counter, if one is active. -/
def reversible_write (ri : ReversionInfo) : Option ℤ × ReversionInfo :=
  let p := ri.rw_counter_of_reversion true
  (if ri.is_persistent then none else some p.1, p.2)

/-- Iterate `reversible_write` for a frame: the list of mirrored-write RW
counters scheduled for `n` consecutive reversible writes, together with the
final bookkeeping state. -/
def reversibleWriteRun (ri : ReversionInfo) : ℕ → List (Option ℤ) × ReversionInfo
  | 0 => ([], ri)
  | n + 1 =>
    let p := reversible_write ri
    let rest := reversibleWriteRun p.2 n
    (p.1 :: rest.1, rest.2)

/-- The `CopyDataType` enum of
`bus-mapping/src/circuit_input_builder/execution.rs`. -/
inductive CopyDataType
  | bytecode
  | memory
  | txCalldata
  | txLog
  | rlcAcc
  deriving DecidableEq

/-- The `RW` read/write marker of `bus_mapping::operation` (as used by
`CopyStep::rw`; the two-variant enum is mirrored from its uses in the corpus). -/
inductive RW
  | read
  | write
  deriving DecidableEq

/-- The `CopyStep` struct of
`bus-mapping/src/circuit_input_builder/execution.rs`. -/
structure CopyStep where
  addr : ℕ
  tag : CopyDataType
  rw : RW
  value : ℕ
  is_code : Option Bool
  rwc : ℕ
  rwc_inc_left : ℕ
  deriving DecidableEq

/-- The `NumberOrHash` enum of
`bus-mapping/src/circuit_input_builder/execution.rs`. -/
inductive NumberOrHash
  | number (n : ℕ)
  | hash (h : ℕ)
  deriving DecidableEq

/-- The `CopyEvent` struct of
`bus-mapping/src/circuit_input_builder/execution.rs`. -/
structure CopyEvent where
  src_addr : ℕ
  src_addr_end : ℕ
  src_type : CopyDataType
  src_id : NumberOrHash
  dst_addr : ℕ
  dst_type : CopyDataType
  dst_id : NumberOrHash
  log_id : Option ℕ
  length : ℕ
  steps : List CopyStep
  deriving DecidableEq

/-- Whether a copy-table row is a padded read: a read whose address is at or
past `src_addr_end` (`is_pad == 1 - (src_addr < src_addr_end)` for read rows,
`is_pad == 0` for write rows, from the copy circuit's `verify step` gate in
`zkevm-circuits/src/copy_circuit.rs`). -/
def CopyStep.is_pad (src_addr_end : ℕ) (s : CopyStep) : Bool :=
  s.rw == RW.read && src_addr_end ≤ s.addr

/-- The per-row RW-counter delta `rw_diff` of the copy circuit's `verify row`
gate (`zkevm-circuits/src/copy_circuit.rs`): 1 when the row's tag is `Memory`
or `TxLog` and the row is not padding, 0 otherwise. -/
def CopyStep.rw_diff (src_addr_end : ℕ) (s : CopyStep) : ℕ :=
  if (s.tag = CopyDataType.memory ∨ s.tag = CopyDataType.txLog) ∧ s.is_pad src_addr_end = false
  then 1 else 0

/-- Modelled from the spec: the per-byte copy-step skeleton of CopyEvent
extraction (the opcode-side builders are not in the corpus): for each of the
remaining `n` bytes at pair index `i`, one read step at `src_addr + i` and one
write step at `dst_addr + i` carrying the same byte value, where reads at or
past `src_addr_end` are zero-padded.  `rwc` and `rwc_inc_left` are filled in
by the stamping passes below. -/
def rawCopySteps (src_addr src_addr_end dst_addr : ℕ) (st dt : CopyDataType)
    (bytes : ℕ → ℕ) (is_code : Option Bool) : ℕ → ℕ → List CopyStep
  | _, 0 => []
  | i, n + 1 =>
    let v := if src_addr + i < src_addr_end then bytes (src_addr + i) else 0
    { addr := src_addr + i, tag := st, rw := RW.read, value := v, is_code := is_code,
      rwc := 0, rwc_inc_left := 0 }
      :: { addr := dst_addr + i, tag := dt, rw := RW.write, value := v, is_code := none,
           rwc := 0, rwc_inc_left := 0 }
      :: rawCopySteps src_addr src_addr_end dst_addr st dt bytes is_code (i + 1) n

/-- Modelled from the spec: fill in `rwc_inc_left` as the number of RW
counters left in the copy event including the current step — i.e. the current
step's `rw_diff` plus the total `rw_diff` of all later steps. -/
def assignIncLeft (src_addr_end : ℕ) : List CopyStep → List CopyStep
  | [] => []
  | s :: t =>
    { s with rwc_inc_left := s.rw_diff src_addr_end + (t.map (CopyStep.rw_diff src_addr_end)).sum }
      :: assignIncLeft src_addr_end t

/-- Modelled from the spec: fill in each step's `rwc` with the current RW
counter, which advances by the step's `rw_diff` (state-touching steps consume
one RWC each; `Bytecode`/`TxCalldata`/`RlcAcc` and padded steps consume none). -/
def assignCopyRwc (src_addr_end : ℕ) (c : ℕ) : List CopyStep → List CopyStep
  | [] => []
  | s :: t => { s with rwc := c } :: assignCopyRwc src_addr_end (c + s.rw_diff src_addr_end) t

/-- Modelled from the spec: assemble a full `CopyEvent` for a copy of `length`
bytes (`2 * length` interleaved read/write steps sharing the handler's RWC
stream starting at `rwc0`). -/
def buildCopyEvent (src_addr src_addr_end : ℕ) (st : CopyDataType) (sid : NumberOrHash)
    (dst_addr : ℕ) (dt : CopyDataType) (did : NumberOrHash) (lid : Option ℕ)
    (bytes : ℕ → ℕ) (is_code : Option Bool) (rwc0 length : ℕ) : CopyEvent :=
  { src_addr := src_addr, src_addr_end := src_addr_end, src_type := st, src_id := sid,
    dst_addr := dst_addr, dst_type := dt, dst_id := did, log_id := lid, length := length,
    steps := assignCopyRwc src_addr_end rwc0 (assignIncLeft src_addr_end
      (rawCopySteps src_addr src_addr_end dst_addr st dt bytes is_code 0 length)) }

/-- Execution states of the EVM circuit step state machine
(`ExecutionState` in the evm circuit; only the states exercised by the
RETURN gadget's next-state constraints are modelled, which is all the
properties below depend on). -/
inductive ExecutionState
  | RETURN
  | STOP
  | BeginTx
  | EndTx
  | EndBlock
  deriving DecidableEq

/-- The kind of one RW lookup emitted by the constraint builder
(`zkevm-circuits/src/evm_circuit/util/constraint_builder.rs`): a stack lookup
carries its `stack_pointer + offset` position, a call-context lookup its
field tag. -/
inductive RwLookupKind
  | stackLookup (is_write : Bool) (sp_offset : ℕ)
  | callContextLookup (is_write : Bool) (field : CallContextFieldTag)
  deriving DecidableEq

/-- One RW lookup emitted while configuring a gadget: the `rw_counter_offset`
it was stamped with (the lookup's counter is the step's `rw_counter` plus this
offset) and the symbolic value it carries (`V` names the gadget's cells). -/
structure RwLookup (V : Type) where
  rwc_offset : ℕ
  kind : RwLookupKind
  value : V
  deriving DecidableEq

/-- The constraint-builder state tracked by
`EVMConstraintBuilder` that the RW-ordering properties depend on:
`rw_counter_offset`, `stack_pointer_offset` and the emitted lookups, in order
(all emissions below happen outside any `condition`, so the condition factor
is constantly 1). -/
structure CBState (V : Type) where
  rw_counter_offset : ℕ
  stack_pointer_offset : ℕ
  lookups : List (RwLookup V)

/-- Fresh constraint-builder state (`rw_counter_offset = 0`,
`stack_pointer_offset = 0`, no lookups yet). -/
def CBState.mkInit {V : Type} : CBState V :=
  { rw_counter_offset := 0, stack_pointer_offset := 0, lookups := [] }

/-- The `rw_lookup` method: emit a lookup at
`curr.rw_counter + rw_counter_offset` and increase `rw_counter_offset` by 1. -/
def CBState.rw_lookup {V : Type} (cb : CBState V) (kind : RwLookupKind) (v : V) : CBState V :=
  { cb with
    rw_counter_offset := cb.rw_counter_offset + 1,
    lookups := cb.lookups ++ [{ rwc_offset := cb.rw_counter_offset, kind := kind, value := v }] }

/-- The `stack_pop` method: a stack read at the current
`stack_pointer_offset`, after which the offset increases by 1. -/
def CBState.stack_pop {V : Type} (cb : CBState V) (v : V) : CBState V :=
  let cb1 := cb.rw_lookup (RwLookupKind.stackLookup false cb.stack_pointer_offset) v
  { cb1 with stack_pointer_offset := cb1.stack_pointer_offset + 1 }

/-- The `call_context` method: query a cell and emit a call-context read
lookup carrying it. -/
def CBState.call_context {V : Type} (cb : CBState V) (v : V) (field : CallContextFieldTag) :
    CBState V :=
  cb.rw_lookup (RwLookupKind.callContextLookup false field) v

/-- The cells queried by `ReturnGadget::configure`
(`zkevm-circuits/src/evm_circuit/execution/return.rs`), used as the symbolic
values carried by its lookups. -/
inductive RetCell
  | lengthCell
  | offsetCell
  | isRootCell
  | isCreateCell
  | isSuccessCell
  | callerIdCell
  | returnDataOffsetCell
  | returnDataLengthCell
  deriving DecidableEq

/-- The unconditional RW-lookup prefix of `ReturnGadget::configure`
(`return.rs` lines 46-61): `stack_pop(length)`, `stack_pop(offset)`, then the
six call-context reads `IsRoot`, `IsCreate`, `IsSuccess`, `CallerId`,
`ReturnDataOffset`, `ReturnDataLength`.  (The remaining emissions of
`configure` — the conditional `IsSuccess` lookup under `is_root`, the copy
table lookup and `RestoreContextGadget` — are all guarded by conditions and
come after this prefix.) -/
def returnConfigureCB : CBState RetCell :=
  ((((((((CBState.mkInit.stack_pop RetCell.lengthCell).stack_pop
      RetCell.offsetCell).call_context
      RetCell.isRootCell CallContextFieldTag.isRoot).call_context
      RetCell.isCreateCell CallContextFieldTag.isCreate).call_context
      RetCell.isSuccessCell CallContextFieldTag.isSuccess).call_context
      RetCell.callerIdCell CallContextFieldTag.callerId).call_context
      RetCell.returnDataOffsetCell CallContextFieldTag.returnDataOffset).call_context
      RetCell.returnDataLengthCell CallContextFieldTag.returnDataLength)

/-- The lookup sequence emitted by the unconditional prefix of
`ReturnGadget::configure`. -/
def returnConfigureLookups : List (RwLookup RetCell) :=
  returnConfigureCB.lookups

/-- The next-state constraints of `ReturnGadget::configure`: under `is_root`,
`require_next_state(EndTx)`; under `not(is_root)`,
`require_next_state_not(EndTx)` (`return.rs` lines 78-79 and 141-142).  A
constraint guarded by a false condition is trivially satisfied. -/
def returnNextStateOk (is_root : Bool) (next : ExecutionState) : Bool :=
  ((if is_root then [fun s => s == ExecutionState.EndTx] else []) ++
   (if !is_root then [fun s => !(s == ExecutionState.EndTx)] else [])).all
    (fun f => f next)

/-- Operations emitted by the MLOAD handler
(`bus-mapping/src/evm/opcodes/mload.rs`). -/
inductive MloadOp
  | stackRead (stack_position value : ℕ)
  | stackWrite (stack_position value : ℕ)
  | memRead (addr byte : ℕ)
  deriving DecidableEq

/-- Big-endian byte decomposition of a 256-bit word (`Word::to_be_bytes`),
32 bytes, most significant first. -/
def wordToBytesBE (w : ℕ) : List ℕ :=
  (List.range 32).map (fun i => w / 256 ^ (31 - i) % 256)

/-- Modelled from the spec: `GethExecStep` memory word read at byte
granularity with uninitialized bytes reading as zero, never an error
(`eth_types`' `Memory::read_word` with its `unwrap_or(Word::zero())` caller is
not in the corpus; memory is modelled as a total byte function). -/
def readWordBE (mem : ℕ → ℕ) (addr : ℕ) : ℕ :=
  ((List.range 32).map (fun i => mem (addr + i))).foldl (fun acc b => acc * 256 + b) 0

/-- The `Mload::gen_associated_ops` emission order
(`bus-mapping/src/evm/opcodes/mload.rs`): first the stack read of the address
operand, then the stack write of the loaded word at the same stack position,
then the 32 per-byte memory reads at `addr .. addr + 31` in ascending address
order, each carrying the corresponding big-endian byte of the loaded word. -/
def mloadGenAssociatedOps (stack_value_read stack_position : ℕ) (mem : ℕ → ℕ) : List MloadOp :=
  let mem_read_addr := stack_value_read
  let mem_read_value := readWordBE mem mem_read_addr
  [MloadOp.stackRead stack_position stack_value_read,
   MloadOp.stackWrite stack_position mem_read_value] ++
    ((wordToBytesBE mem_read_value).zip (List.range 32)).map
      (fun p => MloadOp.memRead (mem_read_addr + p.2) p.1)

/-- Operations emitted by the CALLER handler
(`bus-mapping/src/evm/opcodes/caller.rs`). -/
inductive CallerOp
  | callContextRead (call_id : ℕ) (field : CallContextFieldTag) (value : ℕ)
  | stackWrite (stack_position value : ℕ)
  deriving DecidableEq

/-- The `Caller::gen_associated_ops` emission order
(`bus-mapping/src/evm/opcodes/caller.rs`): a call-context read of the
`CallerAddress` field whose value is the next trace step's stack top, then a
stack write at `last_filled - 1` of that same value. -/
def callerGenAssociatedOps (call_id last_filled next_stack_top : ℕ) : List CallerOp :=
  [CallerOp.callContextRead call_id CallContextFieldTag.callerAddress next_stack_top,
   CallerOp.stackWrite (last_filled - 1) next_stack_top]

theorem reversibleWriteRun_spec (ri : ReversionInfo) (n : ℕ) :
    (reversibleWriteRun ri n).1 =
      (List.range n).map (fun k : ℕ =>
        if ri.is_persistent then none
        else some (ri.rw_counter_end_of_reversion -
          (ri.reversible_write_counter + (k : ℤ)))) ∧
    (reversibleWriteRun ri n).2.reversible_write_counter =
      ri.reversible_write_counter + (n : ℤ) ∧
    (reversibleWriteRun ri n).2.rw_counter_end_of_reversion =
      ri.rw_counter_end_of_reversion ∧
    (reversibleWriteRun ri n).2.is_persistent = ri.is_persistent := by
  induction n generalizing ri with
  | zero => simp [reversibleWriteRun]
  | succ n ih =>
    obtain ⟨h1, h2, h3, h4⟩ :=
      ih { ri with reversible_write_counter := ri.reversible_write_counter + 1 }
    simp only [reversibleWriteRun, reversible_write, ReversionInfo.rw_counter_of_reversion,
      if_true] at h1 h2 h3 h4 ⊢
    refine ⟨?_, ?_, h3, h4⟩
    · rw [List.range_succ_eq_map, List.map_cons, List.map_map, h1]
      congr 1
      · simp
      refine List.map_congr_left (fun k _ => ?_)
      simp only [Function.comp_apply]
      have hc : ((k + 1 : ℕ) : ℤ) = (k : ℤ) + 1 := by push_cast; ring
      by_cases hp : ri.is_persistent
      · simp [hp]
      · simp only [hp, if_false, Bool.false_eq_true, hc]
        congr 1
        ring
    · rw [h2]; push_cast; ring

/-- C2: for every reversible write issued inside a non-persistent call frame,
the mirrored undo write is stamped with RW counter equal to
`rw_counter_end_of_reversion` minus the value of `reversible_write_counter` at
the time of the original write (the k-th of `n` consecutive reversible writes
gets counter `rw_counter_end_of_reversion - (initial counter + k)`), and
`reversible_write_counter` is incremented by exactly 1 for each mirrored write
scheduled (after `n` writes it has advanced by exactly `n`); in a persistent
frame no mirrored write is scheduled. -/
theorem reversion_mirror_rwc_formula (ri : ReversionInfo) (n : ℕ) :
    (reversibleWriteRun ri n).1 =
      (List.range n).map (fun k : ℕ =>
        if ri.is_persistent then none
        else some (ri.rw_counter_end_of_reversion -
          (ri.reversible_write_counter + (k : ℤ)))) ∧
    (reversibleWriteRun ri n).2.reversible_write_counter =
      ri.reversible_write_counter + (n : ℤ) :=
  ⟨(reversibleWriteRun_spec ri n).1, (reversibleWriteRun_spec ri n).2.1⟩

/-- C5 counterexample: the first two RW lookups of `ReturnGadget::configure`
are not the claimed stack reads of offset and then length — the gadget pops
length first. -/
theorem return_stack_read_order_counterexample :
    (returnConfigureLookups.map RwLookup.value).take 2 ≠
      [RetCell.offsetCell, RetCell.lengthCell] := by
  decide

/-- C5 (amended): the RETURN/REVERT gadget's unconditional RW lookups are, in
order: a stack read of the length operand, a stack read of the offset operand
(consuming two consecutive RW counter offsets 0 and 1), then call-context
reads of `IsRoot`, `IsCreate`, `IsSuccess`, `CallerId`, `ReturnDataOffset`,
`ReturnDataLength`, all at consecutive RW counter offsets. -/
theorem return_rw_lookup_sequence :
    returnConfigureLookups =
      [{ rwc_offset := 0, kind := RwLookupKind.stackLookup false 0,
         value := RetCell.lengthCell },
       { rwc_offset := 1, kind := RwLookupKind.stackLookup false 1,
         value := RetCell.offsetCell },
       { rwc_offset := 2, kind := RwLookupKind.callContextLookup false CallContextFieldTag.isRoot,
         value := RetCell.isRootCell },
       { rwc_offset := 3, kind := RwLookupKind.callContextLookup false CallContextFieldTag.isCreate,
         value := RetCell.isCreateCell },
       { rwc_offset := 4, kind := RwLookupKind.callContextLookup false CallContextFieldTag.isSuccess,
         value := RetCell.isSuccessCell },
       { rwc_offset := 5, kind := RwLookupKind.callContextLookup false CallContextFieldTag.callerId,
         value := RetCell.callerIdCell },
       { rwc_offset := 6,
         kind := RwLookupKind.callContextLookup false CallContextFieldTag.returnDataOffset,
         value := RetCell.returnDataOffsetCell },
       { rwc_offset := 7,
         kind := RwLookupKind.callContextLookup false CallContextFieldTag.returnDataLength,
         value := RetCell.returnDataLengthCell }] ∧
    returnConfigureLookups.map RwLookup.rwc_offset = List.range 8 := by
  refine ⟨by decide, by decide⟩

/-- C6: for a RETURN/REVERT step, if the frame is a root call the next
execution state is forced to be `EndTx`, and if it is not a root call the next
execution state must not be `EndTx`. -/
theorem return_next_state_end_tx_iff_root :
    (∀ next : ExecutionState,
      returnNextStateOk true next = true ↔ next = ExecutionState.EndTx) ∧
    (∀ next : ExecutionState,
      returnNextStateOk false next = true ↔ next ≠ ExecutionState.EndTx) := by
  constructor <;> intro next <;> cases next <;> simp [returnNextStateOk]

theorem stampOps_map_fst {α : Type} (c : ℕ) (l : List α) :
    (stampOps c l).map Prod.fst = List.range' c l.length := by
  induction l generalizing c with
  | nil => rfl
  | cons a t ih => simp [stampOps, List.range'_succ, ih]

/-- C8: the CALLER handler emits exactly two RW operations, in this order: a
call-context read of the `CallerAddress` field whose value is the next trace
step's stack top, then a stack write at `last_filled - 1` of that same value,
stamped with two consecutive RW counters. -/
theorem caller_two_ops_consecutive_rwc (rwc0 call_id last_filled next_top : ℕ) :
    stampOps rwc0 (callerGenAssociatedOps call_id last_filled next_top) =
      [(rwc0, CallerOp.callContextRead call_id CallContextFieldTag.callerAddress next_top),
       (rwc0 + 1, CallerOp.stackWrite (last_filled - 1) next_top)] ∧
    (callerGenAssociatedOps call_id last_filled next_top).length = 2 :=
  ⟨rfl, rfl⟩

theorem rw_diff_set_inc (sae : ℕ) (s : CopyStep) (x : ℕ) :
    CopyStep.rw_diff sae { s with rwc_inc_left := x } = CopyStep.rw_diff sae s := rfl

theorem rw_diff_set_rwc (sae : ℕ) (s : CopyStep) (x : ℕ) :
    CopyStep.rw_diff sae { s with rwc := x } = CopyStep.rw_diff sae s := rfl

theorem assignIncLeft_map_value (sae : ℕ) (l : List CopyStep) :
    (assignIncLeft sae l).map CopyStep.value = l.map CopyStep.value := by
  induction l with
  | nil => rfl
  | cons s t ih => simp [assignIncLeft, ih]

theorem assignCopyRwc_map_value (sae c : ℕ) (l : List CopyStep) :
    (assignCopyRwc sae c l).map CopyStep.value = l.map CopyStep.value := by
  induction l generalizing c with
  | nil => rfl
  | cons s t ih => simp [assignCopyRwc, ih]

theorem assignIncLeft_map_rw_diff (sae : ℕ) (l : List CopyStep) :
    (assignIncLeft sae l).map (CopyStep.rw_diff sae) = l.map (CopyStep.rw_diff sae) := by
  induction l with
  | nil => rfl
  | cons s t ih => simp [assignIncLeft, ih, rw_diff_set_inc]

theorem assignCopyRwc_map_rw_diff (sae c : ℕ) (l : List CopyStep) :
    (assignCopyRwc sae c l).map (CopyStep.rw_diff sae) = l.map (CopyStep.rw_diff sae) := by
  induction l generalizing c with
  | nil => rfl
  | cons s t ih => simp [assignCopyRwc, ih, rw_diff_set_rwc]

theorem assignCopyRwc_map_inc (sae c : ℕ) (l : List CopyStep) :
    (assignCopyRwc sae c l).map CopyStep.rwc_inc_left = l.map CopyStep.rwc_inc_left := by
  induction l generalizing c with
  | nil => rfl
  | cons s t ih => simp [assignCopyRwc, ih]

theorem assignIncLeft_length (sae : ℕ) (l : List CopyStep) :
    (assignIncLeft sae l).length = l.length := by
  induction l with
  | nil => rfl
  | cons s t ih => simp [assignIncLeft, ih]

theorem assignCopyRwc_length (sae c : ℕ) (l : List CopyStep) :
    (assignCopyRwc sae c l).length = l.length := by
  induction l generalizing c with
  | nil => rfl
  | cons s t ih => simp [assignCopyRwc, ih]

theorem rawCopySteps_length (sa sae da : ℕ) (st dt : CopyDataType) (bytes : ℕ → ℕ)
    (ic : Option Bool) (i n : ℕ) :
    (rawCopySteps sa sae da st dt bytes ic i n).length = 2 * n := by
  induction n generalizing i with
  | zero => rfl
  | succ n ih =>
    simp only [rawCopySteps, List.length_cons, ih]
    ring

theorem assignIncLeft_head_inc (sae : ℕ) (l : List CopyStep) :
    ((assignIncLeft sae l).map CopyStep.rwc_inc_left).getD 0 0 =
      (l.map (CopyStep.rw_diff sae)).sum := by
  cases l with
  | nil => rfl
  | cons s t => simp [assignIncLeft]

theorem assignIncLeft_inc_step (sae : ℕ) (l : List CopyStep) (j : ℕ) :
    ((assignIncLeft sae l).map CopyStep.rwc_inc_left).getD j 0 =
      (l.map (CopyStep.rw_diff sae)).getD j 0 +
      ((assignIncLeft sae l).map CopyStep.rwc_inc_left).getD (j + 1) 0 := by
  induction l generalizing j with
  | nil => simp [assignIncLeft]
  | cons s t ih =>
    cases j with
    | zero =>
      simp only [assignIncLeft, List.map_cons, List.getD_cons_zero, List.getD_cons_succ]
      rw [assignIncLeft_head_inc]
    | succ j =>
      simp only [assignIncLeft, List.map_cons, List.getD_cons_succ]
      exact ih j

theorem rawCopySteps_value_pair (sa sae da : ℕ) (st dt : CopyDataType) (bytes : ℕ → ℕ)
    (ic : Option Bool) (i n j : ℕ) :
    ((rawCopySteps sa sae da st dt bytes ic i n).map CopyStep.value)[2 * j]? =
      ((rawCopySteps sa sae da st dt bytes ic i n).map CopyStep.value)[2 * j + 1]? := by
  induction n generalizing i j with
  | zero => rfl
  | succ n ih =>
    cases j with
    | zero => simp [rawCopySteps]
    | succ j =>
      have h1 : 2 * (j + 1) = 2 * j + 1 + 1 := by ring
      have h2 : 2 * (j + 1) + 1 = 2 * j + 1 + 1 + 1 := by ring
      simp only [rawCopySteps, List.map_cons, h1, h2, List.getElem?_cons_succ]
      exact ih (i + 1) j

/-- C3: for every copy event built for `n` copied bytes, the number of copy
steps equals `2 * length` (one read step plus one write step per byte,
alternating), and the read step and write step of each byte pair carry equal
`value`. -/
theorem copy_event_length_and_value_pairing (sa sae : ℕ) (st : CopyDataType)
    (sid : NumberOrHash) (da : ℕ) (dt : CopyDataType) (did : NumberOrHash)
    (lid : Option ℕ) (bytes : ℕ → ℕ) (ic : Option Bool) (rwc0 n : ℕ) :
    (buildCopyEvent sa sae st sid da dt did lid bytes ic rwc0 n).steps.length =
      2 * (buildCopyEvent sa sae st sid da dt did lid bytes ic rwc0 n).length ∧
    ∀ j : ℕ,
      ((buildCopyEvent sa sae st sid da dt did lid bytes ic rwc0 n).steps.map
        CopyStep.value)[2 * j]? =
      ((buildCopyEvent sa sae st sid da dt did lid bytes ic rwc0 n).steps.map
        CopyStep.value)[2 * j + 1]? := by
  constructor
  · simp [buildCopyEvent, assignCopyRwc_length, assignIncLeft_length, rawCopySteps_length]
  · intro j
    simp only [buildCopyEvent, assignCopyRwc_map_value, assignIncLeft_map_value]
    exact rawCopySteps_value_pair sa sae da st dt bytes ic 0 n j

/-- C4: within every copy event, `rwc_inc_left` decreases from one step to the
next by exactly that step's RW delta (`rw_diff`: 1 for a non-padded
Memory/TxLog step, 0 for Bytecode/TxCalldata/RlcAcc or padded steps), the
first step carries the total RW delta of the event, and on the last step
`rwc_inc_left` equals that step's own RW delta (the equation below, read at
index `length - 1`, gives exactly that since the out-of-range entry is 0). -/
theorem copy_rwc_inc_left_decrements_by_rw_diff (sa sae : ℕ) (st : CopyDataType)
    (sid : NumberOrHash) (da : ℕ) (dt : CopyDataType) (did : NumberOrHash)
    (lid : Option ℕ) (bytes : ℕ → ℕ) (ic : Option Bool) (rwc0 n : ℕ) :
    (∀ j : ℕ,
      ((buildCopyEvent sa sae st sid da dt did lid bytes ic rwc0 n).steps.map
        CopyStep.rwc_inc_left).getD j 0 =
      ((buildCopyEvent sa sae st sid da dt did lid bytes ic rwc0 n).steps.map
        (CopyStep.rw_diff sae)).getD j 0 +
      ((buildCopyEvent sa sae st sid da dt did lid bytes ic rwc0 n).steps.map
        CopyStep.rwc_inc_left).getD (j + 1) 0) ∧
    ((buildCopyEvent sa sae st sid da dt did lid bytes ic rwc0 n).steps.map
      CopyStep.rwc_inc_left).getD 0 0 =
    ((buildCopyEvent sa sae st sid da dt did lid bytes ic rwc0 n).steps.map
      (CopyStep.rw_diff sae)).sum := by
  constructor
  · intro j
    simp only [buildCopyEvent, assignCopyRwc_map_inc, assignCopyRwc_map_rw_diff,
      assignIncLeft_map_rw_diff]
    exact assignIncLeft_inc_step sae
      (rawCopySteps sa sae da st dt bytes ic 0 n) j
  · simp only [buildCopyEvent, assignCopyRwc_map_inc, assignCopyRwc_map_rw_diff,
      assignIncLeft_map_rw_diff]
    exact assignIncLeft_head_inc sae (rawCopySteps sa sae da st dt bytes ic 0 n)

/-- C7 counterexample: on `PUSH1 0x40; MLOAD` over empty memory (stack top
`0x40 = 64`, stack position 1023, all memory bytes 0), the handler's second
emitted operation is the stack write of the loaded word — not the first of the
32 memory byte reads — and the last (34th) operation is the memory read at
address `95`, not the stack write. -/
theorem mload_op_order_counterexample :
    (mloadGenAssociatedOps 64 1023 (fun _ => 0))[1]? = some (MloadOp.stackWrite 1023 0) ∧
    (mloadGenAssociatedOps 64 1023 (fun _ => 0))[1]? ≠ some (MloadOp.memRead 64 0) ∧
    (mloadGenAssociatedOps 64 1023 (fun _ => 0))[33]? = some (MloadOp.memRead 95 0) := by
  refine ⟨by decide, by decide, by decide⟩

/-- C7 (amended): the MLOAD handler emits, in this order: one stack read of
the address operand, then one stack write of the loaded 32-byte word at the
same stack position, then 32 individual memory byte reads at addresses
`addr` through `addr + 31` in ascending address order carrying the big-endian
bytes of the loaded word — 34 operations in total, each consuming its own RW
counter; a read of uninitialized memory yields zero (memory is a total byte
function defaulting to 0) and is never an error. -/
theorem mload_op_sequence (stack_value_read stack_position rwc0 : ℕ) (mem : ℕ → ℕ) :
    mloadGenAssociatedOps stack_value_read stack_position mem =
      [MloadOp.stackRead stack_position stack_value_read,
       MloadOp.stackWrite stack_position (readWordBE mem stack_value_read)] ++
      (List.range 32).map (fun i =>
        MloadOp.memRead (stack_value_read + i)
          (readWordBE mem stack_value_read / 256 ^ (31 - i) % 256)) ∧
    (mloadGenAssociatedOps stack_value_read stack_position mem).length = 34 ∧
    (stampOps rwc0 (mloadGenAssociatedOps stack_value_read stack_position mem)).map
      Prod.fst = List.range' rwc0 34 := by
  have hseq : mloadGenAssociatedOps stack_value_read stack_position mem =
      [MloadOp.stackRead stack_position stack_value_read,
       MloadOp.stackWrite stack_position (readWordBE mem stack_value_read)] ++
      (List.range 32).map (fun i =>
        MloadOp.memRead (stack_value_read + i)
          (readWordBE mem stack_value_read / 256 ^ (31 - i) % 256)) := by
    unfold mloadGenAssociatedOps wordToBytesBE
    congr 1
  have hlen : (mloadGenAssociatedOps stack_value_read stack_position mem).length = 34 := by
    rw [hseq]
    simp
  refine ⟨hseq, hlen, ?_⟩
  rw [stampOps_map_fst, hlen]


theorem rwIsNotStart_of_ne (r : Rw) (h : r.tag ≠ Target.start) : rwIsNotStart r = true := by
  cases r
  all_goals first
  | rfl
  | exact absurd rfl h

theorem rwPaddingCounter_of_ne (r : Rw) (h : r.tag ≠ Target.padding) :
    rwPaddingCounter r = none := by
  cases r
  all_goals first
  | rfl
  | exact absurd rfl h

theorem range'_take (s m n : ℕ) :
    (List.range' s n).take m = List.range' s (min m n) := by
  induction n generalizing s m with
  | zero => simp
  | succ n ih =>
    cases m with
    | zero => simp
    | succ m =>
      rw [List.range'_succ, List.take_succ_cons, ih, Nat.succ_min_succ, List.range'_succ]

theorem paddingCounters_nil (s n : ℕ) :
    paddingCounters [] s n = List.range' s n := by
  unfold paddingCounters
  have h1 : (fun c : ℕ => !(List.contains [] c)) = fun _ => true := by
    funext c
    simp
  rw [h1, List.filter_true, ← List.range'_eq_map_range]
  exact List.take_of_length_le (by simp)

theorem padding_len_none_iff (rl tl : ℕ) :
    (RwMap.padding_len rl tl = none) ↔ (tl ≠ 0 ∧ tl < rl) := by
  unfold RwMap.padding_len
  by_cases h1 : rl ≤ tl
  · rw [if_pos h1]
    constructor
    · intro h
      exact absurd h (by simp)
    · intro h
      omega
  · rw [if_neg h1]
    by_cases h2 : tl ≠ 0
    · rw [if_pos h2]
      constructor
      · intro _
        omega
      · intro _
        rfl
    · rw [if_neg h2]
      constructor
      · intro h
        exact absurd h (by simp)
      · intro h
        omega

/-- C9 counterexample: with a single real row, a target length equal to the
real row count (1) produces just the Start row — the real row is silently
truncated away, with no error — and a target length of 0, which is smaller
than the real row count, is an "auto" mode that returns no rows instead of
erroring. -/
theorem padding_target_len_counterexample :
    RwMap.table_assignments_padding [Rw.stack 7 true 1 1023 5] 1 none =
      some ([Rw.start 1], 0) ∧
    RwMap.table_assignments_padding [Rw.stack 7 true 1 1023 5] 0 none = some ([], 0) := by
  refine ⟨by decide, by decide⟩

/-- C9 (amended): given real rows (no Start/Padding among them) and a target
length, the helper errors exactly when the target length is nonzero and
smaller than the real row count (a target length of 0 is an "auto" mode that
does not error), and whenever the target length strictly exceeds the real row
count it emits exactly target-length rows consisting of one Start row first,
then the real rows, then fresh Padding rows with counters continuing from
`real count + 1`. -/
theorem table_assignments_padding_shape (rows : List Rw) (target_len : ℕ)
    (hclean : ∀ r ∈ rows, r.tag ≠ Target.start ∧ r.tag ≠ Target.padding) :
    (RwMap.table_assignments_padding rows target_len none = none ↔
      target_len ≠ 0 ∧ target_len < rows.length) ∧
    (rows.length + 1 ≤ target_len →
      RwMap.table_assignments_padding rows target_len none =
        some (Rw.start 1 :: rows ++
            (List.range' (rows.length + 1) (target_len - rows.length - 1)).map Rw.padding,
          target_len - rows.length - 1)) := by
  have htrim : rows.filter rwIsNotStart = rows :=
    List.filter_eq_self.mpr (fun r hr => rwIsNotStart_of_ne r ((hclean r hr).1))
  have hexist : rows.filterMap rwPaddingCounter = [] :=
    List.filterMap_eq_nil_iff.mpr (fun r hr => rwPaddingCounter_of_ne r ((hclean r hr).2))
  constructor
  · have hnone : RwMap.table_assignments_padding rows target_len none = none ↔
        RwMap.padding_len rows.length target_len = none := by
      simp only [RwMap.table_assignments_padding, htrim, hexist]
      cases hp : RwMap.padding_len rows.length target_len <;> simp [hp]
    exact hnone.trans (padding_len_none_iff rows.length target_len)
  · intro hgt
    have hle : rows.length ≤ target_len := by omega
    have hplen : RwMap.padding_len rows.length target_len = some (target_len - rows.length) := by
      unfold RwMap.padding_len
      rw [if_pos hle]
    simp only [RwMap.table_assignments_padding, htrim, hexist, hplen, paddingCounters_nil,
      Option.getD_none, Option.some.injEq, Prod.mk.injEq]
    refine ⟨?_, trivial⟩
    rw [List.take_append_eq_append_take,
      List.take_of_length_le (by simp; omega : ([Rw.start 1] ++ rows).length ≤ target_len),
      ← List.map_take, range'_take]
    have hmin : min (target_len - ([Rw.start 1] ++ rows).length) target_len =
        target_len - rows.length - 1 := by
      simp only [List.length_append, List.length_cons, List.length_nil]
      omega
    rw [hmin]
    simp

theorem sortByKey_perm {α κ : Type} [LinearOrder κ] (key : α → κ) (l : List α) :
    (sortByKey key l).Perm l :=
  List.perm_insertionSort _ l

theorem sortByKey_pairwise {α κ : Type} [LinearOrder κ] (key : α → κ) (l : List α) :
    (sortByKey key l).Pairwise (fun a b => key a ≤ key b) := by
  haveI : IsTotal α (fun a b => key a ≤ key b) := ⟨fun a b => le_total (key a) (key b)⟩
  haveI : IsTrans α (fun a b => key a ≤ key b) := ⟨fun _ _ _ h1 h2 => le_trans h1 h2⟩
  exact List.sorted_insertionSort _ l

/-- C10: `table_assignments` returns a permutation of all stored rows; with
`keep_chronological_order` set the result is sorted by `(rw_counter, tag)`,
without it the result is sorted by the grouping key `(tag, id, address,
field_tag, storage_key)` with `rw_counter` only as the final tie-breaker — and
the default (grouped) output is not globally RWC-ascending, as the two-row map
in the last conjunct shows (its Memory row with counter 2 sorts before its
Stack row with counter 1). -/
theorem table_assignments_sort_order (m : RwMap) :
    (RwMap.table_assignments m true).Perm (RwMap.allRows m) ∧
    (RwMap.table_assignments m true).Pairwise (fun a b => a.chronoKey ≤ b.chronoKey) ∧
    (RwMap.table_assignments m false).Perm (RwMap.allRows m) ∧
    (RwMap.table_assignments m false).Pairwise (fun a b => a.groupKey ≤ b.groupKey) ∧
    ¬ (RwMap.table_assignments
        [(Target.stack, [Rw.stack 1 true 1 1023 5]), (Target.memory, [Rw.memory 2 true 1 0 7])]
        false).Pairwise (fun a b : Rw => a.rw_counter ≤ b.rw_counter) := by
  refine ⟨?_, ?_, ?_, ?_, ?_⟩
  · show (sortByKey Rw.chronoKey (RwMap.allRows m)).Perm (RwMap.allRows m)
    exact sortByKey_perm _ _
  · show (sortByKey Rw.chronoKey (RwMap.allRows m)).Pairwise _
    exact sortByKey_pairwise _ _
  · show (sortByKey Rw.groupKey (RwMap.allRows m)).Perm (RwMap.allRows m)
    exact sortByKey_perm _ _
  · show (sortByKey Rw.groupKey (RwMap.allRows m)).Pairwise _
    exact sortByKey_pairwise _ _
  · decide

theorem toRw_rw_counter (op : Operation) (c : ℕ) : (op.toRw c).rw_counter = c := by
  cases op <;> rfl

theorem toRw_tag_real (op : Operation) (c : ℕ) :
    realTargets.contains (op.toRw c).tag = true := by
  cases op <;> rfl

theorem stampFrom_map_counter (ops : List Operation) (c : ℕ) :
    (stampFrom c ops).map Rw.rw_counter = List.range' c ops.length := by
  induction ops generalizing c with
  | nil => rfl
  | cons op t ih => simp [stampFrom, List.range'_succ, toRw_rw_counter, ih]

theorem stampFrom_forall_real (c : ℕ) (ops : List Operation) (r : Rw)
    (h : r ∈ stampFrom c ops) : realTargets.contains r.tag = true := by
  induction ops generalizing c with
  | nil => cases h
  | cons op t ih =>
    rcases List.mem_cons.mp h with h | h
    · rw [h]
      exact toRw_tag_real op c
    · exact ih (c + 1) h

theorem sorted_le_range' (s n : ℕ) : List.Sorted (· ≤ ·) (List.range' s n) := by
  induction n generalizing s with
  | zero => simp
  | succ n ih =>
    rw [List.range'_succ]
    refine List.Pairwise.cons ?_ (ih (s + 1))
    intro b hb
    rw [List.mem_range'] at hb
    obtain ⟨i, _, rfl⟩ := hb
    omega

theorem chainDiffOne_range' (s n : ℕ) : chainDiffOne (List.range' s n) = true := by
  induction n generalizing s with
  | zero => rfl
  | succ n ih =>
    rw [List.range'_succ]
    cases n with
    | zero => rfl
    | succ m =>
      rw [List.range'_succ]
      have hstep : chainDiffOne (s :: (s + 1) :: List.range' (s + 1 + 1) m) =
          (((s + 1) - s == 1) && chainDiffOne ((s + 1) :: List.range' (s + 1 + 1) m)) := rfl
      rw [hstep, ← List.range'_succ, ih (s + 1)]
      simp [Nat.add_sub_cancel_left]

theorem bucket_flatten_count (ts : List Target) (hnd : ts.Nodup) (rws : List Rw) (a : Rw) :
    ((ts.map (fun t => rws.filter (fun r => r.tag == t))).flatten).count a =
      if a.tag ∈ ts then rws.count a else 0 := by
  induction ts with
  | nil => simp
  | cons t ts ih =>
    simp only [List.map_cons, List.flatten_cons, List.count_append]
    rw [ih (List.Nodup.of_cons hnd)]
    by_cases hat : a.tag = t
    · have hnmem : a.tag ∉ ts := fun hmem => (List.nodup_cons.mp hnd).1 (hat ▸ hmem)
      rw [List.count_filter (by simp [hat]), if_neg hnmem,
        if_pos (List.mem_cons.mpr (Or.inl hat)), Nat.add_zero]
    · have h1 : (rws.filter (fun r => r.tag == t)).count a = 0 := by
        apply List.count_eq_zero.mpr
        intro hmem
        have hp := List.of_mem_filter hmem
        simp only [beq_iff_eq] at hp
        exact hat hp
      rw [h1, Nat.zero_add]
      by_cases hmem : a.tag ∈ ts
      · rw [if_pos hmem, if_pos (List.mem_cons.mpr (Or.inr hmem))]
      · rw [if_neg hmem, if_neg (by simp [List.mem_cons, hat, hmem])]

theorem filter_contains_count (ts : List Target) (rws : List Rw) (a : Rw) :
    (rws.filter (fun r => ts.contains r.tag)).count a =
      if a.tag ∈ ts then rws.count a else 0 := by
  by_cases hmem : a.tag ∈ ts
  · rw [if_pos hmem]
    exact List.count_filter (by simpa [List.elem_iff] using hmem)
  · rw [if_neg hmem]
    apply List.count_eq_zero.mpr
    intro hin
    have hp := List.of_mem_filter hin
    rw [List.elem_iff] at hp
    exact hmem hp

theorem bucket_flatten_perm (ts : List Target) (hnd : ts.Nodup) (rws : List Rw) :
    ((ts.map (fun t => rws.filter (fun r => r.tag == t))).flatten).Perm
      (rws.filter (fun r => ts.contains r.tag)) := by
  rw [List.perm_iff_count]
  intro a
  rw [bucket_flatten_count ts hnd rws a, filter_contains_count ts rws a]

/-- C1: the RW counters assigned by the emission choke point to a block's
operations (`Start` and `Padding` excluded) form exactly the contiguous set
`{1, ..., N}`: sorted they equal `[1, 2, ..., N]` — strictly increasing, no
duplicates, no gaps — and the grouped map, with arbitrary `Start` and
`Padding` rows added, passes `RwMap::check_rw_counter_sanity`. -/
theorem rwc_values_contiguous_from_one (ops : List Operation) (startCtrs padCtrs : List ℕ) :
    ((stampFrom 1 ops).map Rw.rw_counter).insertionSort (· ≤ ·) =
      List.range' 1 ops.length ∧
    RwMap.check_rw_counter_sanity (RwMap.ofRws
      (stampFrom 1 ops ++ startCtrs.map Rw.start ++ padCtrs.map Rw.padding)) = true := by
  have hmap := stampFrom_map_counter ops 1
  constructor
  · rw [hmap]
    exact List.Sorted.insertionSort_eq (sorted_le_range' 1 ops.length)
  · set rws := stampFrom 1 ops ++ startCtrs.map Rw.start ++ padCtrs.map Rw.padding with hrws
    unfold RwMap.check_rw_counter_sanity RwMap.ofRws
    rw [List.filter_map, List.map_map]
    have hpf : ((fun e : Target × List Rw => !(e.1 == Target.padding) && !(e.1 == Target.start)) ∘
        (fun t => (t, rws.filter (fun r => r.tag == t)))) =
        fun t : Target => !(t == Target.padding) && !(t == Target.start) := rfl
    have hsnd : (Prod.snd ∘ (fun t => (t, rws.filter (fun r => r.tag == t)))) =
        fun t : Target => rws.filter (fun r => r.tag == t) := rfl
    rw [hpf, hsnd]
    rw [show Target.all.filter (fun t => !(t == Target.padding) && !(t == Target.start)) =
      realTargets from rfl]
    have hnd : realTargets.Nodup := by decide
    have hperm1 := bucket_flatten_perm realTargets hnd rws
    have hfilter : rws.filter (fun r => realTargets.contains r.tag) = stampFrom 1 ops := by
      rw [hrws, List.filter_append, List.filter_append,
        List.filter_eq_self.mpr (fun r hr => stampFrom_forall_real 1 ops r hr),
        List.filter_eq_nil_iff.mpr ?_, List.filter_eq_nil_iff.mpr ?_]
      · simp
      · intro r hr
        obtain ⟨c, _, rfl⟩ := List.mem_map.mp hr
        simp [Rw.tag, realTargets, Target.all]
      · intro r hr
        obtain ⟨c, _, rfl⟩ := List.mem_map.mp hr
        simp [Rw.tag, realTargets, Target.all]
    have heq : (rws.filter (fun r => realTargets.contains r.tag)).map Rw.rw_counter =
        List.range' 1 ops.length := by
      rw [hfilter, hmap]
    have hp : (((realTargets.map (fun t => rws.filter (fun r => r.tag == t))).flatten).map
        Rw.rw_counter).Perm (List.range' 1 ops.length) := by
      rw [← heq]
      exact hperm1.map Rw.rw_counter
    have hperm2 := List.perm_insertionSort (· ≤ ·)
      (((realTargets.map (fun t => rws.filter (fun r => r.tag == t))).flatten).map Rw.rw_counter)
    have hsorted := List.sorted_insertionSort (· ≤ ·)
      (((realTargets.map (fun t => rws.filter (fun r => r.tag == t))).flatten).map Rw.rw_counter)
    have hfin := List.eq_of_perm_of_sorted (hperm2.trans hp) hsorted
      (sorted_le_range' 1 ops.length)
    rw [hfin]
    exact chainDiffOne_range' 1 ops.length

/-- C9 witness: the padding shape theorem applied to one real Stack row and
target length 4: one Start row, the real row, then Padding rows 2 and 3. -/
theorem table_assignments_padding_shape_witness :
    RwMap.table_assignments_padding [Rw.stack 7 true 1 1023 5] 4 none =
      some ([Rw.start 1, Rw.stack 7 true 1 1023 5, Rw.padding 2, Rw.padding 3], 2) := by
  have h := (table_assignments_padding_shape [Rw.stack 7 true 1 1023 5] 4 (by decide)).2
    (by decide)
  rw [h]
  rfl
